import Mathlib

/-!
Verification of the MSv2-to-processing-set conversion core
(`src/xradio/vis/convert_msv2_to_processing_set.py`).

The embedding models the per-partition row set of the filtered main table
as a list of rows.  Floating-point cell values are modelled by an
arbitrary type `V`; the NaN missing-value sentinel of the dense arrays is
modelled by `Option.none`.  Column values that can be NaN in the source
(channel frequencies, channel widths) are modelled as `Option Int`, with
`none` standing for NaN.  Times and intervals are modelled as integers
(an arbitrary linearly ordered carrier for the float values of the
source).
-/

namespace Xradio

/-- One row of the filtered main table, carrying the TIME, ANTENNA1 and
ANTENNA2 cells and the cell value of the column being materialized. -/
structure Row (V : Type) where
  time : Int
  antenna1 : Nat
  antenna2 : Nat
  val : V
deriving DecidableEq

/-- The canonical baseline key of a row.  The source builds the
zero-padded string `str(antenna1).zfill(3) + "_" + str(antenna2).zfill(3)`
(`calc_indx_for_row_split`, lines 88-91) and orders baselines on it; per
the spec this is "lexicographic on zero-padded antenna id pair", so the
key is modelled as the antenna id pair under the lexicographic pair
order (identical to the zero-padded string order for ids below 1000). -/
def baseline_key (a1 a2 : Nat) : Lex (Nat × Nat) :=
  toLex (a1, a2)

/-- Insert into a strictly sorted list, keeping it sorted and duplicate
free. -/
def sortedInsert {α : Type} [LinearOrder α] (x : α) : List α → List α
  | [] => [x]
  | y :: ys =>
    if x < y then x :: y :: ys
    else if x = y then y :: ys
    else y :: sortedInsert x ys

/-- Sorted deduplication, the model of `np.unique` on a one-dimensional
array: the distinct values in increasing order. -/
def uniqueSorted {α : Type} [LinearOrder α] (l : List α) : List α :=
  l.foldr sortedInsert []

/-- Modelled from the spec: `get_baselines` (imported from
`read_main_table`, not under `src/`) returns "the set of distinct
baselines, canonically ordered (e.g., lexicographic on zero-padded
antenna id pair)".  We compute the sorted distinct baseline strings of
the row set. -/
def get_baselines {V : Type} (rows : List (Row V)) : List (Lex (Nat × Nat)) :=
  uniqueSorted (rows.map (fun r => baseline_key r.antenna1 r.antenna2))

/-- Modelled from the spec: `get_utimes_tol` (imported from
`read_main_table`, not under `src/`) returns "a sorted, deduplicated
time axis (values within a small numeric tolerance collapse to one)".
The tolerance is modelled as exact equality on the integer carrier. -/
def get_utimes {V : Type} (rows : List (Row V)) : List Int :=
  uniqueSorted (rows.map (fun r => r.time))

/-- Model of `np.searchsorted(a, v)` with the default `side="left"` on a sorted
array: the number of entries strictly below `v`, i.e. the leftmost
insertion index. -/
def searchsorted {α : Type} [LinearOrder α] (a : List α) (v : α) : Nat :=
  (a.takeWhile (fun x => decide (x < v))).length

/-- Model of `tidxs = np.searchsorted(utimes, tb_tool.getcol("TIME"))`
(`calc_indx_for_row_split`, line 81). -/
def tidxs {V : Type} (rows : List (Row V)) : List Nat :=
  rows.map (fun r => searchsorted (get_utimes rows) r.time)

/-- Model of `bidxs = np.searchsorted(baselines, ts_bases)`
(`calc_indx_for_row_split`, line 92). -/
def bidxs {V : Type} (rows : List (Row V)) : List Nat :=
  rows.map (fun r =>
    searchsorted (get_baselines rows) (baseline_key r.antenna1 r.antenna2))

/-- Model of `didxs = np.where((bidxs >= 0) & (bidxs < len(baselines)))[0]`
(`calc_indx_for_row_split`, line 95): the row indices whose baseline
index is in bounds. -/
def didxs {V : Type} (rows : List (Row V)) : List Nat :=
  (((bidxs rows).enum).filter
    (fun p => decide (0 ≤ p.2) && decide (p.2 < (get_baselines rows).length))).map
    Prod.fst

/-- One fancy-indexing assignment `fulldata[i, j] = v`: the write at the
(time-index, baseline-index) pair `p.1` of value `p.2`, later writes
shadowing earlier ones. -/
def assign {V : Type} (g : Nat → Nat → Option V) (p : (Nat × Nat) × V) :
    Nat → Nat → Option V :=
  fun i j => if (i, j) = p.1 then some p.2 else g i j

/-- Model of `fulldata = np.full(..., np.nan); fulldata[tidxs, bidxs] = data`
(`read_col`, lines 137 and 141): start from the all-NaN grid (`none`
everywhere) and perform one assignment per row, in row order. -/
def scatter {V : Type} (idx : List (Nat × Nat)) (vals : List V) :
    Nat → Nat → Option V :=
  (idx.zip vals).foldl assign (fun _ _ => none)

/-- Model of `read_col` (lines 123-144): materialize one column of the row set as
a dense (time, baseline) grid.  The `didxs` argument is accepted, as in
the source, but never used: the scatter writes every row. -/
def read_col {V : Type} (rows : List (Row V))
    (tidxs bidxs didxs : List Nat) : Nat → Nat → Option V :=
  scatter (tidxs.zip bidxs) (rows.map (fun r => r.val))

/-- The recognized physical-column → output-array-name mapping table
(`convert_and_write_partition`, lines 302-312); `none` for a column
absent from the table. -/
def col_to_data_variable_names : String → Option String
  | "FLOAT_DATA" => some "SPECTRUM"
  | "DATA" => some "VISIBILITY"
  | "CORRECTED_DATA" => some "VISIBILITY_CORRECTED"
  | "WEIGHT_SPECTRUM" => some "WEIGHT"
  | "WEIGHT" => some "WEIGHT"
  | "FLAG" => some "FLAG"
  | "UVW" => some "UVW"
  | "TIME_CENTROID" => some "TIME_CENTROID"
  | "EXPOSURE" => some "EFFECTIVE_INTEGRATION_TIME"
  | _ => none

/-- The columns for which the data-variable loop
(`convert_and_write_partition`, lines 340-343) creates a data variable:
columns in the mapping table, except `WEIGHT` when `WEIGHT_SPECTRUM` is
also present.  (The per-column `try`/`except` can drop further columns
on read failure; reads are modelled as succeeding.) -/
def emitted_columns (col_names : List String) : List String :=
  col_names.filter (fun col =>
    (col_to_data_variable_names col).isSome &&
      !(col == "WEIGHT" && col_names.contains "WEIGHT_SPECTRUM"))

/-- Model of `_check_single_field` (lines 110-114):
`field_id = np.unique(FIELD_ID); assert len(field_id) == 1` and return
the unique value.  A failed assertion is modelled as `Except.error`. -/
def _check_single_field (field_ids : List Int) : Except String Int :=
  match uniqueSorted field_ids with
  | [f] => Except.ok f
  | _ => Except.error "More than one field present."

/-- Model of `_check_interval_consistent` (lines 117-120):
`interval = np.unique(INTERVAL); assert len(interval) == 1` and return
the unique value. -/
def _check_interval_consistent (intervals : List Int) : Except String Int :=
  match uniqueSorted intervals with
  | [i] => Except.ok i
  | _ => Except.error "Interval is not consistent."

/-- The two invariant checks as run in sequence by
`convert_and_write_partition` (lines 383-384): the field check first,
then the interval check; the first failed assertion aborts. -/
def check_partition_invariants (field_ids intervals : List Int) :
    Except String (Int × Int) :=
  (_check_single_field field_ids).bind (fun f =>
    (_check_interval_consistent intervals).map (fun i => (f, i)))

/-- Model of `coords["frequency"] = chan_freq[~np.isnan(chan_freq)]`
(`create_coordinates`, lines 180-182): the non-NaN channel frequencies,
in column order.  `none` models NaN. -/
def frequency_coord (chan_freq : List (Option Int)) : List Int :=
  chan_freq.filterMap id

/-- The channel-width computation of `create_coordinates`
(lines 213 and 220):
`unique_chan_width = np.unique(chan_width[~isnan(chan_width)])` followed
by `np.abs(unique_chan_width[0])`; indexing an empty unique array is an
`IndexError`, modelled as `Except.error`. -/
def channel_width (chan_width : List (Option Int)) : Except String Int :=
  match uniqueSorted (chan_width.filterMap id) with
  | [] => Except.error "IndexError: index 0 is out of bounds for axis 0 with size 0"
  | w :: _ => Except.ok |w|

/-- Follows the claim's words, for comparison with `channel_width`: "the
first non-NaN channel-width value", i.e. the first non-NaN entry in
column order. -/
def first_non_nan_width (chan_width : List (Option Int)) : Option Int :=
  (chan_width.filterMap id).head?

/-- The monotonicity fix-up applied to the frequency axis and to the
time axis before writing (`convert_and_write_partition`, lines 437-442):
if `axis[1] - axis[0] < 0` the whole axis is reversed, otherwise it is
left unchanged; accessing `axis[1]` on an axis of length below 2 is an
`IndexError`, modelled as `Except.error`. -/
def fix_axis (axis : List Int) : Except String (List Int) :=
  match axis with
  | a :: b :: rest =>
    if b - a < 0 then Except.ok (a :: b :: rest).reverse
    else Except.ok (a :: b :: rest)
  | _ => Except.error "IndexError: index 1 is out of bounds"

/-- The output location of a partition (`convert_and_write_partition`,
lines 253-262): `file_name = outfile`, with `"_field_id_" + str(field_id)`
appended when a field id is given.  The `ddi` argument enters only the
TAQL row filter, never the name. -/
def partition_file_name (outfile : String) (ddi : Nat)
    (field_id : Option Nat) : String :=
  match field_id with
  | none => outfile
  | some f => outfile ++ "_field_id_" ++ toString f

/-- The store path of the main dense-array partition,
`file_name + "/MAIN"` (line 445). -/
def main_store_path (outfile : String) (ddi : Nat) (field_id : Option Nat) :
    String :=
  partition_file_name outfile ddi field_id ++ "/MAIN"

/-- The storage-backend dispatch at the end of
`convert_and_write_partition` (lines 444-449): `"zarr"` writes the MAIN
and ANTENNA stores; `"netcdf"` hits a bare `raise` (a `RuntimeError`,
modelled as `Except.error`); any other value matches neither branch and
the function returns without writing.  The result lists the store paths
written. -/
def write_partition (storage_backend : String) (file_name : String) :
    Except String (List String) :=
  if storage_backend = "zarr" then
    Except.ok [file_name ++ "/MAIN", file_name ++ "/ANTENNA"]
  else if storage_backend = "netcdf" then
    Except.error "RuntimeError: No active exception to re-raise"
  else
    Except.ok []

/-- One row of the FIELD subtable, with the 2-element direction triplet
columns (each direction reduced to its first polynomial order, as the
source indexes `[field_id, 0, :]`). -/
structure FieldRow where
  name : String
  code : String
  delay_dir : Int × Int
  phase_dir : Int × Int
  reference_dir : Int × Int
deriving DecidableEq

/-- A direction entry of `field_info`: a 2-element sky coordinate with
its unit and type tags. -/
structure Direction where
  data : Int × Int
  units : String
  type : String
deriving DecidableEq

/-- The `field_info` attribute dictionary. -/
structure FieldInfo where
  name : String
  code : String
  delay_direction : Direction
  phase_direction : Direction
  reference_direction : Direction
  field_id : Nat
deriving DecidableEq

/-- The `field_info` construction of `convert_and_write_partition`
(lines 392-410): `delay_direction` from the `delay_dir` column,
`phase_direction` from the `phase_dir` column, and — as in line 400 of
the source — `reference_direction` also from the `delay_dir` column. -/
def make_field_info (field_xds : List FieldRow) (field_id : Nat) :
    Option FieldInfo :=
  (field_xds.get? field_id).map (fun row =>
    { name := row.name
      code := row.code
      delay_direction := { data := row.delay_dir, units := "rad", type := "sky_coord" }
      phase_direction := { data := row.phase_dir, units := "rad", type := "sky_coord" }
      reference_direction := { data := row.delay_dir, units := "rad", type := "sky_coord" }
      field_id := field_id })

/-- The arguments with which one `convert_and_write_partition` call is
made; `storage_backend` defaults to `"zarr"` as in the source signature
(line 247). -/
structure ConvertCallArgs where
  infile : String
  outfile : String
  ddi : Nat
  field_id : Option Nat
  storage_backend : String := "zarr"
  overwrite : Bool := false
deriving DecidableEq

/-- The per-partition call built by `convert_msv2_to_processing_set`
(lines 489-516): the `parallel` branch (`dask.delayed`, lines 493-504)
passes no `storage_backend`, leaving the default; the sequential branch
(lines 506-516) forwards the caller's selector. -/
def scheduled_call (parallel : Bool) (infile outfile storage_backend : String)
    (overwrite : Bool) (ddi : Nat) (field_id : Nat) : ConvertCallArgs :=
  if parallel then
    { infile := infile, outfile := outfile, ddi := ddi,
      field_id := some field_id, overwrite := overwrite }
  else
    { infile := infile, outfile := outfile, ddi := ddi,
      field_id := some field_id, storage_backend := storage_backend,
      overwrite := overwrite }

/-- A two-row example row set with distinct (time, baseline) keys. -/
def exampleRows : List (Row Int) :=
  [{ time := 0, antenna1 := 0, antenna2 := 1, val := 10 },
   { time := 3, antenna1 := 0, antenna2 := 2, val := 20 }]

/-- A one-row example row set. -/
def singleRow : List (Row Int) :=
  [{ time := 0, antenna1 := 0, antenna2 := 1, val := 5 }]

/-- An example FIELD row whose reference direction differs from its
delay direction. -/
def exampleFieldRow : FieldRow :=
  { name := "field0", code := "", delay_dir := (1, 2),
    phase_dir := (3, 4), reference_dir := (5, 6) }

end Xradio

namespace Xradio

theorem mem_sortedInsert {α : Type} [LinearOrder α] (x a : α) (l : List α) :
    a ∈ sortedInsert x l ↔ a = x ∨ a ∈ l := by
  induction l with
  | nil => simp [sortedInsert]
  | cons y ys ih =>
    by_cases h1 : x < y
    · simp [sortedInsert, h1]
    · by_cases h2 : x = y
      · subst h2
        have hx : sortedInsert x (x :: ys) = x :: ys := by
          rw [sortedInsert, if_neg h1, if_pos rfl]
        simp only [hx, List.mem_cons]
        tauto
      · simp only [sortedInsert, if_neg h1, if_neg h2, List.mem_cons, ih]
        tauto

theorem sorted_sortedInsert {α : Type} [LinearOrder α] (x : α) (l : List α)
    (h : l.Sorted (· < ·)) : (sortedInsert x l).Sorted (· < ·) := by
  induction l with
  | nil => simp [sortedInsert]
  | cons y ys ih =>
    rw [List.sorted_cons] at h
    obtain ⟨hy, hys⟩ := h
    by_cases h1 : x < y
    · rw [sortedInsert, if_pos h1, List.sorted_cons]
      refine ⟨?_, (List.sorted_cons).2 ⟨hy, hys⟩⟩
      intro b hb
      rcases List.mem_cons.1 hb with rfl | hb
      · exact h1
      · exact h1.trans (hy b hb)
    · by_cases h2 : x = y
      · rw [sortedInsert, if_neg h1, if_pos h2, List.sorted_cons]
        exact ⟨hy, hys⟩
      · have hyx : y < x := by
          rcases lt_trichotomy x y with h | h | h
          · exact absurd h h1
          · exact absurd h h2
          · exact h
        rw [sortedInsert, if_neg h1, if_neg h2, List.sorted_cons]
        refine ⟨?_, ih hys⟩
        intro b hb
        rcases (mem_sortedInsert x b ys).1 hb with rfl | hb
        · exact hyx
        · exact hy b hb

theorem sorted_uniqueSorted {α : Type} [LinearOrder α] (l : List α) :
    (uniqueSorted l).Sorted (· < ·) := by
  induction l with
  | nil => simp [uniqueSorted]
  | cons x xs ih => exact sorted_sortedInsert x _ ih

theorem mem_uniqueSorted {α : Type} [LinearOrder α] (a : α) (l : List α) :
    a ∈ uniqueSorted l ↔ a ∈ l := by
  induction l with
  | nil => simp [uniqueSorted]
  | cons x xs ih =>
    show a ∈ sortedInsert x (uniqueSorted xs) ↔ _
    rw [mem_sortedInsert, ih, List.mem_cons]

theorem searchsorted_get? {α : Type} [LinearOrder α] (l : List α)
    (hl : l.Sorted (· < ·)) (x : α) (hx : x ∈ l) :
    l.get? (searchsorted l x) = some x := by
  induction l with
  | nil => cases hx
  | cons y ys ih =>
    rw [List.sorted_cons] at hl
    by_cases h1 : y < x
    · have hstep : searchsorted (y :: ys) x = searchsorted ys x + 1 := by
        simp [searchsorted, List.takeWhile_cons, h1]
      have hxy : x ≠ y := fun h => absurd (h ▸ h1) (lt_irrefl x)
      have hx2 : x ∈ ys := by
        rcases List.mem_cons.1 hx with h | h
        · exact absurd h hxy
        · exact h
      rw [hstep]
      exact ih hl.2 hx2
    · have hstep : searchsorted (y :: ys) x = 0 := by
        simp [searchsorted, List.takeWhile_cons, h1]
      have hxy : x = y := by
        rcases List.mem_cons.1 hx with h | h
        · exact h
        · exact absurd (hl.1 x h) h1
      rw [hstep, hxy]
      rfl

theorem searchsorted_lt_length {α : Type} [LinearOrder α] (l : List α)
    (hl : l.Sorted (· < ·)) (x : α) (hx : x ∈ l) :
    searchsorted l x < l.length := by
  by_contra h
  have hnone : l.get? (searchsorted l x) = none :=
    List.get?_eq_none.2 (le_of_not_lt h)
  rw [searchsorted_get? l hl x hx] at hnone
  cases hnone

theorem searchsorted_inj {α : Type} [LinearOrder α] (l : List α)
    (hl : l.Sorted (· < ·)) (x y : α) (hx : x ∈ l) (hy : y ∈ l)
    (h : searchsorted l x = searchsorted l y) : x = y := by
  have h1 := searchsorted_get? l hl x hx
  have h2 := searchsorted_get? l hl y hy
  rw [h, h2] at h1
  exact (Option.some.injEq _ _ ▸ h1).symm

theorem foldl_assign_of_not_mem {V : Type} (asg : List ((Nat × Nat) × V))
    (g : Nat → Nat → Option V) (i j : Nat)
    (h : (i, j) ∉ asg.map Prod.fst) :
    asg.foldl assign g i j = g i j := by
  induction asg generalizing g with
  | nil => rfl
  | cons p rest ih =>
    rw [List.map_cons, List.mem_cons] at h
    push_neg at h
    rw [List.foldl_cons, ih _ h.2]
    simp only [assign, if_neg h.1]

theorem foldl_assign_of_mem {V : Type} (asg : List ((Nat × Nat) × V))
    (g : Nat → Nat → Option V) (i j : Nat) (v : V)
    (hnd : (asg.map Prod.fst).Nodup) (hmem : ((i, j), v) ∈ asg) :
    asg.foldl assign g i j = some v := by
  induction asg generalizing g with
  | nil => cases hmem
  | cons p rest ih =>
    rw [List.map_cons, List.nodup_cons] at hnd
    rcases List.mem_cons.1 hmem with heq | hmem2
    · subst heq
      rw [List.foldl_cons, foldl_assign_of_not_mem rest _ i j hnd.1]
      simp [assign]
    · exact ih _ hnd.2 hmem2

/-- C1: for a row set whose rows are uniquely keyed by
(time, baseline string), `read_col` with the index map of
`calc_indx_for_row_split` yields a dense grid in which each row's
(time-index, baseline-index) cell holds that row's value, and every
grid cell hit by no row holds the missing-value sentinel (`none`,
modelling NaN). -/
theorem read_col_dense_correct {V : Type} (rows : List (Row V))
    (hkey : (rows.map
      (fun r => (r.time, baseline_key r.antenna1 r.antenna2))).Nodup) :
    (∀ r ∈ rows,
        read_col rows (tidxs rows) (bidxs rows) (didxs rows)
          (searchsorted (get_utimes rows) r.time)
          (searchsorted (get_baselines rows)
            (baseline_key r.antenna1 r.antenna2)) = some r.val)
    ∧ (∀ i j, i < (get_utimes rows).length →
        j < (get_baselines rows).length →
        (∀ r ∈ rows,
            ¬(searchsorted (get_utimes rows) r.time = i ∧
              searchsorted (get_baselines rows)
                (baseline_key r.antenna1 r.antenna2) = j)) →
        read_col rows (tidxs rows) (bidxs rows) (didxs rows) i j = none) := by
  have hzip : (tidxs rows).zip (bidxs rows)
      = rows.map (fun r => (searchsorted (get_utimes rows) r.time,
          searchsorted (get_baselines rows)
            (baseline_key r.antenna1 r.antenna2))) := by
    rw [tidxs, bidxs, List.zip_map']
  have hasg : ((tidxs rows).zip (bidxs rows)).zip
        (rows.map (fun r => r.val))
      = rows.map (fun r => ((searchsorted (get_utimes rows) r.time,
          searchsorted (get_baselines rows)
            (baseline_key r.antenna1 r.antenna2)), r.val)) := by
    rw [hzip, List.zip_map']
  have hinjkey := List.inj_on_of_nodup_map hkey
  have hnodup : (rows.map (fun r => (searchsorted (get_utimes rows) r.time,
      searchsorted (get_baselines rows)
        (baseline_key r.antenna1 r.antenna2)))).Nodup := by
    refine (hkey.of_map _).map_on ?_
    intro x hx y hy hxy
    have h1 : searchsorted (get_utimes rows) x.time
        = searchsorted (get_utimes rows) y.time := congrArg Prod.fst hxy
    have h2 : searchsorted (get_baselines rows)
          (baseline_key x.antenna1 x.antenna2)
        = searchsorted (get_baselines rows)
          (baseline_key y.antenna1 y.antenna2) := congrArg Prod.snd hxy
    have ht : x.time = y.time := by
      refine searchsorted_inj _ (sorted_uniqueSorted _) _ _ ?_ ?_ h1
      · exact (mem_uniqueSorted _ _).2
          (List.mem_map_of_mem (fun r => r.time) hx)
      · exact (mem_uniqueSorted _ _).2
          (List.mem_map_of_mem (fun r => r.time) hy)
    have hb : baseline_key x.antenna1 x.antenna2
        = baseline_key y.antenna1 y.antenna2 := by
      refine searchsorted_inj _ (sorted_uniqueSorted _) _ _ ?_ ?_ h2
      · exact (mem_uniqueSorted _ _).2
          (List.mem_map_of_mem
            (fun r => baseline_key r.antenna1 r.antenna2) hx)
      · exact (mem_uniqueSorted _ _).2
          (List.mem_map_of_mem
            (fun r => baseline_key r.antenna1 r.antenna2) hy)
    exact hinjkey hx hy (by rw [ht, hb])
  constructor
  · intro r hr
    unfold read_col scatter
    rw [hasg]
    refine foldl_assign_of_mem _ _ _ _ _ ?_ ?_
    · rw [List.map_map]
      exact hnodup
    · exact List.mem_map_of_mem _ hr
  · intro i j hi hj hmiss
    unfold read_col scatter
    rw [hasg]
    refine foldl_assign_of_not_mem _ _ _ _ ?_
    rw [List.map_map]
    intro hmem
    obtain ⟨r, hr, heq⟩ := List.mem_map.1 hmem
    exact hmiss r hr
      ⟨congrArg Prod.fst heq, congrArg Prod.snd heq⟩

/-- Witness for C1 at a concrete two-row set. -/
theorem read_col_dense_correct_witness :
    ((exampleRows.map
      (fun r => (r.time, baseline_key r.antenna1 r.antenna2))).Nodup)
    ∧ ((∀ r ∈ exampleRows,
        read_col exampleRows (tidxs exampleRows) (bidxs exampleRows)
          (didxs exampleRows)
          (searchsorted (get_utimes exampleRows) r.time)
          (searchsorted (get_baselines exampleRows)
            (baseline_key r.antenna1 r.antenna2)) = some r.val)
    ∧ (∀ i j, i < (get_utimes exampleRows).length →
        j < (get_baselines exampleRows).length →
        (∀ r ∈ exampleRows,
            ¬(searchsorted (get_utimes exampleRows) r.time = i ∧
              searchsorted (get_baselines exampleRows)
                (baseline_key r.antenna1 r.antenna2) = j)) →
        read_col exampleRows (tidxs exampleRows) (bidxs exampleRows)
          (didxs exampleRows) i j = none)) :=
  ⟨by decide, read_col_dense_correct exampleRows (by decide)⟩

/-- C2 counterexample: in the one-row set `singleRow`, row 0 is flagged
by `didxs` although its baseline lies inside the computed baseline set,
so `didxs` does not flag "exactly the rows whose baseline falls outside
the computed baseline set" — it flags the rows whose baseline index is
in bounds. -/
theorem didxs_counterexample :
    didxs singleRow = [0] ∧ baseline_key 0 1 ∈ get_baselines singleRow := by
  decide

/-- C2 (amended): `didxs` flags exactly the rows whose baseline index is
within the bounds of the computed baseline set — which is every row,
since the baselines are computed from the same row set — and `read_col`
does not consult `didxs` at all: its result is independent of that
argument, every row's value being written by the scatter. -/
theorem didxs_amended {V : Type} (rows : List (Row V)) :
    didxs rows = List.range rows.length
    ∧ ∀ t b d d2 : List Nat,
        read_col rows t b d = read_col rows t b d2 := by
  constructor
  · have hb : ∀ b ∈ bidxs rows, b < (get_baselines rows).length := by
      intro b hbm
      obtain ⟨r, hr, rfl⟩ := List.mem_map.1 hbm
      exact searchsorted_lt_length _ (sorted_uniqueSorted _) _
        ((mem_uniqueSorted _ _).2
          (List.mem_map_of_mem (fun r => baseline_key r.antenna1 r.antenna2) hr))
    have hfilter : ((bidxs rows).enum).filter
        (fun p => decide (0 ≤ p.2) &&
          decide (p.2 < (get_baselines rows).length)) = (bidxs rows).enum := by
      refine List.filter_eq_self.2 ?_
      intro p hp
      have hmem : p.2 ∈ bidxs rows := List.snd_mem_of_mem_enum hp
      simp [hb p.2 hmem]
    rw [didxs, hfilter, List.enum_map_fst, bidxs, List.length_map]
  · intro t b d d2
    rfl

/-- C3: the output location of a partition is determined by the field id
alone — the ddi never enters the name — so the two partitions
(ddi 0, field 0) and (ddi 1, field 0) of one conversion are persisted to
the same store path, contradicting naming by the full key. -/
theorem partition_name_ddi_collision :
    main_store_path "out" 0 (some 0) = main_store_path "out" 1 (some 0)
    ∧ (0 : Nat) ≠ 1 :=
  ⟨rfl, by decide⟩

/-- C4: a source column yields a data variable only if it is in the
recognized mapping table, `WEIGHT` is skipped whenever `WEIGHT_SPECTRUM`
is also present, and a column absent from the mapping table is never
emitted. -/
theorem emitted_columns_spec (col_names : List String) :
    (∀ col ∈ emitted_columns col_names,
      col ∈ col_names ∧ (col_to_data_variable_names col).isSome)
    ∧ ("WEIGHT_SPECTRUM" ∈ col_names →
        "WEIGHT" ∉ emitted_columns col_names)
    ∧ (∀ col, col_to_data_variable_names col = none →
        col ∉ emitted_columns col_names) := by
  refine ⟨?_, ?_, ?_⟩
  · intro col hcol
    rw [emitted_columns, List.mem_filter] at hcol
    refine ⟨hcol.1, ?_⟩
    have := hcol.2
    simp only [Bool.and_eq_true] at this
    exact this.1
  · intro hws hmem
    rw [emitted_columns, List.mem_filter] at hmem
    have := hmem.2
    simp [hws] at this
  · intro col hnone hmem
    rw [emitted_columns, List.mem_filter] at hmem
    have := hmem.2
    simp [hnone] at this

/-- Witness for C4 at a concrete column list. -/
theorem emitted_columns_spec_witness :
    ("WEIGHT_SPECTRUM" ∈ ["WEIGHT_SPECTRUM", "WEIGHT", "FOO"]
      ∧ col_to_data_variable_names "FOO" = none)
    ∧ "WEIGHT" ∉ emitted_columns ["WEIGHT_SPECTRUM", "WEIGHT", "FOO"]
    ∧ "FOO" ∉ emitted_columns ["WEIGHT_SPECTRUM", "WEIGHT", "FOO"] :=
  ⟨⟨by decide, rfl⟩,
   (emitted_columns_spec ["WEIGHT_SPECTRUM", "WEIGHT", "FOO"]).2.1 (by decide),
   (emitted_columns_spec ["WEIGHT_SPECTRUM", "WEIGHT", "FOO"]).2.2 "FOO" rfl⟩

theorem uniqueSorted_eq_singleton_iff {α : Type} [LinearOrder α]
    (l : List α) (f : α) :
    uniqueSorted l = [f] ↔ f ∈ l ∧ ∀ x ∈ l, x = f := by
  constructor
  · intro h
    have hmem : ∀ x, x ∈ l ↔ x ∈ [f] := by
      intro x
      rw [← mem_uniqueSorted x l, h]
    constructor
    · exact (hmem f).2 (List.mem_singleton.2 rfl)
    · intro x hx
      exact List.mem_singleton.1 ((hmem x).1 hx)
  · rintro ⟨hf, hall⟩
    have hmemf : f ∈ uniqueSorted l := (mem_uniqueSorted f l).2 hf
    have hsorted := sorted_uniqueSorted l
    have hallu : ∀ x ∈ uniqueSorted l, x = f := by
      intro x hx
      exact hall x ((mem_uniqueSorted x l).1 hx)
    match hu : uniqueSorted l with
    | [] => rw [hu] at hmemf; cases hmemf
    | y :: ys =>
      rw [hu] at hallu hsorted
      have hy : y = f := hallu y (List.mem_cons_self y ys)
      match ys, hallu, hsorted with
      | [], _, _ => rw [hy]
      | z :: zs, hallu, hsorted =>
        have hz : z = f := hallu z (by simp)
        have : y < z := (List.sorted_cons.1 hsorted).1 z (by simp)
        rw [hy, hz] at this
        exact absurd this (lt_irrefl f)

theorem _check_single_field_ok {l : List Int} {f : Int}
    (h : _check_single_field l = Except.ok f) : f ∈ l ∧ ∀ x ∈ l, x = f := by
  unfold _check_single_field at h
  split at h
  · next f2 heq =>
    cases h
    exact (uniqueSorted_eq_singleton_iff l f).1 heq
  · cases h

theorem _check_interval_consistent_ok {l : List Int} {f : Int}
    (h : _check_interval_consistent l = Except.ok f) :
    f ∈ l ∧ ∀ x ∈ l, x = f := by
  unfold _check_interval_consistent at h
  split at h
  · next f2 heq =>
    cases h
    exact (uniqueSorted_eq_singleton_iff l f).1 heq
  · cases h

theorem _check_single_field_error_iff (l : List Int) (hne : l ≠ []) :
    (∃ e, _check_single_field l = Except.error e)
      ↔ ∃ a ∈ l, ∃ b ∈ l, a ≠ b := by
  constructor
  · rintro ⟨e, he⟩
    unfold _check_single_field at he
    split at he
    · cases he
    · next hnot =>
      by_contra hno
      push_neg at hno
      obtain ⟨y, hy⟩ := List.exists_mem_of_ne_nil l hne
      have : uniqueSorted l = [y] :=
        (uniqueSorted_eq_singleton_iff l y).2
          ⟨hy, fun x hx => hno x hx y hy⟩
      exact hnot y this
  · rintro ⟨a, ha, b, hb, hab⟩
    unfold _check_single_field
    split
    · next f heq =>
      have h := (uniqueSorted_eq_singleton_iff l f).1 heq
      exact absurd ((h.2 a ha).trans (h.2 b hb).symm) hab
    · exact ⟨_, rfl⟩

theorem _check_interval_consistent_error_iff (l : List Int) (hne : l ≠ []) :
    (∃ e, _check_interval_consistent l = Except.error e)
      ↔ ∃ a ∈ l, ∃ b ∈ l, a ≠ b := by
  constructor
  · rintro ⟨e, he⟩
    unfold _check_interval_consistent at he
    split at he
    · cases he
    · next hnot =>
      by_contra hno
      push_neg at hno
      obtain ⟨y, hy⟩ := List.exists_mem_of_ne_nil l hne
      have : uniqueSorted l = [y] :=
        (uniqueSorted_eq_singleton_iff l y).2
          ⟨hy, fun x hx => hno x hx y hy⟩
      exact hnot y this
  · rintro ⟨a, ha, b, hb, hab⟩
    unfold _check_interval_consistent
    split
    · next f heq =>
      have h := (uniqueSorted_eq_singleton_iff l f).1 heq
      exact absurd ((h.2 a ha).trans (h.2 b hb).symm) hab
    · exact ⟨_, rfl⟩

/-- C5: for a non-empty partition, the invariant checks fail with an
assertion error if and only if the rows contain more than one distinct
FIELD_ID value or more than one distinct INTERVAL value; when the checks
pass, the returned field id and interval are the unique values of the
respective columns. -/
theorem check_partition_invariants_spec (field_ids intervals : List Int)
    (hf : field_ids ≠ []) (hi : intervals ≠ []) :
    ((∃ e, check_partition_invariants field_ids intervals = Except.error e)
      ↔ (∃ a ∈ field_ids, ∃ b ∈ field_ids, a ≠ b)
        ∨ (∃ a ∈ intervals, ∃ b ∈ intervals, a ≠ b))
    ∧ (∀ f i, check_partition_invariants field_ids intervals
          = Except.ok (f, i) →
        (∀ x ∈ field_ids, x = f) ∧ (∀ x ∈ intervals, x = i)) := by
  constructor
  · cases hfield : _check_single_field field_ids with
    | error e =>
      have hl : ∃ a ∈ field_ids, ∃ b ∈ field_ids, a ≠ b :=
        (_check_single_field_error_iff field_ids hf).1 ⟨e, hfield⟩
      constructor
      · intro _
        exact Or.inl hl
      · intro _
        exact ⟨e, by simp [check_partition_invariants, hfield, Except.bind]⟩
    | ok f =>
      have hfone : ∀ a ∈ field_ids, ∀ b ∈ field_ids, a = b := by
        intro a ha b hb
        rw [(_check_single_field_ok hfield).2 a ha,
          (_check_single_field_ok hfield).2 b hb]
      cases hint : _check_interval_consistent intervals with
      | error e =>
        have hr : ∃ a ∈ intervals, ∃ b ∈ intervals, a ≠ b :=
          (_check_interval_consistent_error_iff intervals hi).1 ⟨e, hint⟩
        constructor
        · intro _
          exact Or.inr hr
        · intro _
          exact ⟨e, by simp [check_partition_invariants, hfield, hint,
            Except.bind, Except.map]⟩
      | ok i =>
        have hione : ∀ a ∈ intervals, ∀ b ∈ intervals, a = b := by
          intro a ha b hb
          rw [(_check_interval_consistent_ok hint).2 a ha,
            (_check_interval_consistent_ok hint).2 b hb]
        constructor
        · rintro ⟨e, he⟩
          rw [check_partition_invariants, hfield] at he
          simp [Except.bind, hint, Except.map] at he
        · rintro (⟨a, ha, b, hb, hab⟩ | ⟨a, ha, b, hb, hab⟩)
          · exact absurd (hfone a ha b hb) hab
          · exact absurd (hione a ha b hb) hab
  · intro f i hok
    rw [check_partition_invariants] at hok
    cases hfield : _check_single_field field_ids with
    | error e =>
      rw [hfield] at hok
      simp [Except.bind] at hok
    | ok f2 =>
      rw [hfield] at hok
      cases hint : _check_interval_consistent intervals with
      | error e =>
        rw [hint] at hok
        simp [Except.bind, Except.map] at hok
      | ok i2 =>
        rw [hint] at hok
        simp only [Except.bind, Except.map, Except.ok.injEq,
          Prod.mk.injEq] at hok
        obtain ⟨hf2, hi2⟩ := hok
        subst hf2
        subst hi2
        exact ⟨(_check_single_field_ok hfield).2,
          (_check_interval_consistent_ok hint).2⟩

/-- Witness for C5 at concrete single-valued columns. -/
theorem check_partition_invariants_spec_witness :
    (([1, 1] : List Int) ≠ [] ∧ ([2] : List Int) ≠ [])
    ∧ ((∀ x ∈ ([1, 1] : List Int), x = 1)
      ∧ (∀ x ∈ ([2] : List Int), x = 2)) :=
  ⟨⟨by decide, by decide⟩,
   (check_partition_invariants_spec [1, 1] [2] (by decide) (by decide)).2
     1 2 rfl⟩

/-- C6 counterexample: for the channel-width column [5, 3] (no NaN), the
code records `abs(np.unique(widths)[0]) = 3`, while the first non-NaN
channel-width value in column order is 5 — `np.unique` sorts, so the
recorded width is the smallest distinct value, not the first. -/
theorem channel_width_counterexample :
    channel_width [some 5, some 3] = Except.ok 3
    ∧ first_non_nan_width [some 5, some 3] = some 5
    ∧ (3 : Int) ≠ |(5 : Int)| := by
  refine ⟨?_, rfl, by decide⟩
  show Except.ok |(3 : Int)| = Except.ok 3
  norm_num

/-- C6 (amended): `create_coordinates` records the channel width as the
absolute value of the smallest distinct non-NaN width value (the head of
the sorted unique array), raises when the column is entirely NaN, and
the frequency coordinate consists of exactly the non-NaN channel
frequencies. -/
theorem create_coordinates_spec (chan_width chan_freq : List (Option Int)) :
    ((∃ e, channel_width chan_width = Except.error e)
      ↔ ∀ x ∈ chan_width, x = none)
    ∧ (∀ m, channel_width chan_width = Except.ok m →
        ∃ w, some w ∈ chan_width ∧ m = |w|
          ∧ ∀ x : Int, some x ∈ chan_width → w ≤ x)
    ∧ (∀ x : Int, x ∈ frequency_coord chan_freq ↔ some x ∈ chan_freq) := by
  have hmemfm : ∀ (l : List (Option Int)) (x : Int),
      x ∈ l.filterMap id ↔ some x ∈ l := by
    intro l x
    rw [List.mem_filterMap]
    constructor
    · rintro ⟨a, ha, rfl⟩
      exact ha
    · intro h
      exact ⟨some x, h, rfl⟩
  refine ⟨?_, ?_, ?_⟩
  · constructor
    · rintro ⟨e, he⟩
      unfold channel_width at he
      split at he
      · next hnil =>
        have : chan_width.filterMap id = [] := by
          match hu : chan_width.filterMap id with
          | [] => rfl
          | w :: ws =>
            have : w ∈ uniqueSorted (chan_width.filterMap id) :=
              (mem_uniqueSorted _ _).2 (hu ▸ List.mem_cons_self w ws)
            rw [hnil] at this
            cases this
        intro x hx
        rcases x with _ | v
        · rfl
        · have hv : v ∈ chan_width.filterMap id := (hmemfm chan_width v).2 hx
          rw [this] at hv
          cases hv
      · cases he
    · intro hall
      have hnil : chan_width.filterMap id = [] :=
        List.filterMap_eq_nil_iff.2 (fun a ha => by rw [hall a ha]; rfl)
      refine ⟨"IndexError: index 0 is out of bounds for axis 0 with size 0", ?_⟩
      unfold channel_width
      rw [hnil]
      rfl
  · intro m hm
    unfold channel_width at hm
    split at hm
    · cases hm
    · next w ws hcons =>
      cases hm
      have hwmem : w ∈ chan_width.filterMap id := by
        have : w ∈ uniqueSorted (chan_width.filterMap id) :=
          hcons ▸ List.mem_cons_self w ws
        exact (mem_uniqueSorted _ _).1 this
      refine ⟨w, (hmemfm chan_width w).1 hwmem, rfl, ?_⟩
      intro x hx
      have hxu : x ∈ uniqueSorted (chan_width.filterMap id) :=
        (mem_uniqueSorted _ _).2 ((hmemfm chan_width x).2 hx)
      rw [hcons] at hxu
      rcases List.mem_cons.1 hxu with rfl | hxs
      · exact le_refl x
      · have hsorted := sorted_uniqueSorted (chan_width.filterMap id)
        rw [hcons] at hsorted
        exact le_of_lt ((List.sorted_cons.1 hsorted).1 x hxs)
  · intro x
    unfold frequency_coord
    exact hmemfm chan_freq x

/-- Witness for C6's amended theorem: an all-NaN width column errors and
a non-NaN frequency appears in the coordinate. -/
theorem create_coordinates_spec_witness :
    (∃ e, channel_width [none] = Except.error e)
    ∧ (0 : Int) ∈ frequency_coord [some 0] :=
  ⟨(create_coordinates_spec [none] [some 0]).1.mpr (by decide),
   ((create_coordinates_spec [none] [some 0]).2.2 0).mpr (by decide)⟩

/-- C7 counterexample: the frequency axis [1, 3, 2] is not monotone; the
fix-up inspects only the first delta (positive here), leaves the axis
unchanged, and the partition is written with a frequency coordinate that
is not strictly increasing. -/
theorem fix_axis_counterexample :
    fix_axis [1, 3, 2] = Except.ok [1, 3, 2]
    ∧ ¬ ([1, 3, 2] : List Int).Sorted (· < ·) := by
  refine ⟨rfl, by decide⟩

/-- C7 (amended): when an axis of length at least 2 is strictly monotone
(ascending or descending), the pre-write fix-up yields a strictly
increasing axis: an ascending axis is kept, a descending one is
reversed.  (For a non-monotone axis the fix-up writes it unchanged, and
a single-entry axis raises an IndexError.) -/
theorem fix_axis_correct (axis : List Int) (h2 : 2 ≤ axis.length)
    (hmono : axis.Sorted (· < ·) ∨ axis.reverse.Sorted (· < ·)) :
    ∃ out, fix_axis axis = Except.ok out ∧ out.Sorted (· < ·) := by
  match axis, h2 with
  | a :: b :: rest, _ =>
    rcases hmono with hasc | hdesc
    · have hab : a < b := (List.sorted_cons.1 hasc).1 b (by simp)
      refine ⟨a :: b :: rest, ?_, hasc⟩
      simp only [fix_axis]
      rw [if_neg (by omega)]
    · have hdown : (a :: b :: rest).Pairwise (fun x y => y < x) :=
        List.pairwise_reverse.1 hdesc
      have hab : b < a := (List.pairwise_cons.1 hdown).1 b (by simp)
      refine ⟨(a :: b :: rest).reverse, ?_, hdesc⟩
      simp only [fix_axis]
      rw [if_pos (by omega)]

/-- Witness for C7's amended theorem at a concrete descending axis. -/
theorem fix_axis_correct_witness :
    (2 ≤ ([3, 2, 1] : List Int).length
      ∧ (([3, 2, 1] : List Int).Sorted (· < ·)
        ∨ ([3, 2, 1] : List Int).reverse.Sorted (· < ·)))
    ∧ ∃ out, fix_axis [3, 2, 1] = Except.ok out
        ∧ out.Sorted (· < ·) :=
  ⟨⟨by decide, Or.inr (by decide)⟩,
   fix_axis_correct [3, 2, 1] (by decide) (Or.inr (by decide))⟩

/-- C8 counterexample: the backend value "hdf5" is neither "zarr" nor
"netcdf"; it matches no dispatch branch, so the conversion writes
nothing and raises nothing — no error for this non-"zarr" backend. -/
theorem write_partition_counterexample :
    write_partition "hdf5" "out" = Except.ok []
    ∧ ∀ e, write_partition "hdf5" "out" ≠ Except.error e := by
  refine ⟨rfl, ?_⟩
  intro e h
  cases (rfl : write_partition "hdf5" "out" = Except.ok []).symm.trans h

/-- C8 (amended): only the "netcdf" backend raises (a bare `raise`,
hence a RuntimeError), after the whole in-memory conversion; any other
backend value different from "zarr" silently writes nothing and raises
nothing. -/
theorem write_partition_spec (backend file_name : String)
    (h : backend ≠ "zarr") :
    (backend = "netcdf" → write_partition backend file_name
        = Except.error "RuntimeError: No active exception to re-raise")
    ∧ (backend ≠ "netcdf" →
        write_partition backend file_name = Except.ok []) := by
  constructor
  · intro hn
    subst hn
    rfl
  · intro hn
    unfold write_partition
    rw [if_neg h, if_neg hn]

/-- Witness for C8's amended theorem at the "netcdf" backend. -/
theorem write_partition_spec_witness :
    (("netcdf" : String) ≠ "zarr")
    ∧ write_partition "netcdf" "out"
        = Except.error "RuntimeError: No active exception to re-raise" :=
  ⟨by decide, (write_partition_spec "netcdf" "out" (by decide)).1 rfl⟩

/-- C9: for a field whose reference direction (5, 6) differs from its
delay direction (1, 2), the persisted `field_info` carries the
delay-direction values under `reference_direction` — line 400 of the
source reads the `delay_dir` column for the reference direction, against
its own description text. -/
theorem make_field_info_reference_dir_bug :
    make_field_info [exampleFieldRow] 0
      = some
        { name := "field0", code := "",
          delay_direction :=
            { data := (1, 2), units := "rad", type := "sky_coord" },
          phase_direction :=
            { data := (3, 4), units := "rad", type := "sky_coord" },
          reference_direction :=
            { data := (1, 2), units := "rad", type := "sky_coord" },
          field_id := 0 }
    ∧ exampleFieldRow.reference_dir = (5, 6)
    ∧ ((1, 2) : Int × Int) ≠ (5, 6) :=
  ⟨rfl, rfl, by decide⟩

/-- C10: the parallel branch of the enumerator schedules every partition
conversion without forwarding `storage_backend`, so the call uses the
default "zarr" regardless of the caller's selector; the sequential
branch forwards the selector. -/
theorem scheduled_call_storage_backend (infile outfile sb : String)
    (ov : Bool) (ddi fid : Nat) :
    (scheduled_call true infile outfile sb ov ddi fid).storage_backend
        = "zarr"
    ∧ (scheduled_call false infile outfile sb ov ddi fid).storage_backend
        = sb :=
  ⟨rfl, rfl⟩

end Xradio
